import Mathlib

/-!
Verification of the megaplace backend synchronization engine
(`backend/src/eventListener.ts` and its callers), shallowly embedded in Lean.

The engine keeps a sparse in-memory pixel store (a JS object keyed by the
string `"x,y"`), a `lastProcessedBlock` cursor (a JS `bigint`) and a
`totalPixels` counter (a JS `number`).  Events arrive either through the
historical backfill path (`processHistoricalEvents` / `processChunksParallel`)
or through the live watcher (`startWatching`); both paths mutate the store
with the same erase/upsert logic.  The store is periodically persisted to a
JSON snapshot (`saveStorage` / `saveStorageImmediate`) and reloaded at
startup (`loadStorage`).

The JS object holding the pixels is modelled as an association list whose
keys are the coordinate pairs; JS object semantics are mirrored exactly:
assignment to an existing key replaces the binding in place, assignment to a
fresh key appends it, and `delete` removes the binding for the key.
-/

/-- A coordinate key, modelling the JS object key `"x,y"` (the string key is
in bijection with the pair of naturals). -/
abbrev Coord := Nat × Nat

/-- `PixelData` from `eventListener.ts`: the record stored per coordinate. -/
structure PixelData where
  color : Nat
  placedBy : String
  timestamp : Nat
  x : Nat
  y : Nat
deriving DecidableEq

/-- The `pixels` record of `PixelStorage`: a JS object keyed by `"x,y"`,
modelled as an association list in insertion order. -/
abbrev PixelMap := List (Coord × PixelData)

/-- Property (JS `obj[key]`) lookup: first binding whose key matches. -/
def lookupPix (k : Coord) : PixelMap → Option PixelData
  | [] => none
  | p :: rest => if p.1 = k then some p.2 else lookupPix k rest

/-- JS `delete obj[key]`: remove the binding for `k` (keys of a JS object
are unique, so at most one binding matches). -/
def erasePix (k : Coord) (m : PixelMap) : PixelMap :=
  m.filter fun p => p.1 ≠ k

/-- JS `obj[key] = v`: replace the binding in place when the key is present,
append it otherwise. -/
def insertPix (k : Coord) (v : PixelData) (m : PixelMap) : PixelMap :=
  if (lookupPix k m).isSome then
    m.map fun p => if p.1 = k then (k, v) else p
  else
    m ++ [(k, v)]

/-- The keys of a pixel map. -/
def pixKeys (m : PixelMap) : List Coord :=
  m.map Prod.fst

/-- `PixelStorage` from `eventListener.ts`.  `lastProcessedBlock` is a JS
`bigint` holding a block number, modelled as `Nat`; `totalPixels` is a JS
`number`, modelled as `Int` so that the no-underflow claim is not true by
type alone. -/
structure PixelStorage where
  pixels : PixelMap
  lastProcessedBlock : Nat
  totalPixels : Int
deriving DecidableEq

/-- The storage installed by the `EventListener` constructor: no pixels,
cursor at the configured deployment (genesis) block. -/
def emptyStorage (genesis : Nat) : PixelStorage :=
  { pixels := [], lastProcessedBlock := genesis, totalPixels := 0 }

/-- A decoded `PixelPlaced` event (`args` of a log): `user`, `x`, `y`,
`color`, `timestamp`. -/
structure PixelEvent where
  user : String
  x : Nat
  y : Nat
  color : Nat
  timestamp : Nat
deriving DecidableEq

/-- The storage key `` `${args.x},${args.y}` `` built for an event. -/
def eventKey (e : PixelEvent) : Coord :=
  (e.x, e.y)

/-- The `PixelData` record built from a log's `args`. -/
def pixelDataOf (e : PixelEvent) : PixelData :=
  { color := e.color, placedBy := e.user, timestamp := e.timestamp, x := e.x, y := e.y }

/-- Application of one event to the storage, as written in the backfill path
(`processHistoricalEvents`, eventListener.ts lines 492-503): literal color 0
erases (remove-if-present, decrementing the counter iff a binding was
removed); any non-zero color upserts (incrementing the counter iff the key
was absent). -/
def applyEvent (s : PixelStorage) (e : PixelEvent) : PixelStorage :=
  let key := eventKey e
  if e.color = 0 then
    if (lookupPix key s.pixels).isSome then
      { s with pixels := erasePix key s.pixels, totalPixels := s.totalPixels - 1 }
    else
      s
  else
    if (lookupPix key s.pixels).isSome then
      { s with pixels := insertPix key (pixelDataOf e) s.pixels }
    else
      { s with pixels := insertPix key (pixelDataOf e) s.pixels,
               totalPixels := s.totalPixels + 1 }

/-- Application of one event in the live watcher's `onLogs` handler
(`startWatching`, eventListener.ts lines 647-661).  The handler's storage
mutation is written out separately in the source (with the `isNewPixel`
local), so it is embedded separately here. -/
def applyLiveEvent (s : PixelStorage) (e : PixelEvent) : PixelStorage :=
  let key := eventKey e
  if e.color = 0 then
    if (lookupPix key s.pixels).isSome then
      { s with pixels := erasePix key s.pixels, totalPixels := s.totalPixels - 1 }
    else
      s
  else
    let isNewPixel := !(lookupPix key s.pixels).isSome
    if isNewPixel then
      { s with pixels := insertPix key (pixelDataOf e) s.pixels,
               totalPixels := s.totalPixels + 1 }
    else
      { s with pixels := insertPix key (pixelDataOf e) s.pixels }

/-- Folding a list of decoded logs through `applyEvent`, as the `for` loop
over `logs` does in `processHistoricalEvents`. -/
def applyEvents (s : PixelStorage) (logs : List PixelEvent) : PixelStorage :=
  logs.foldl applyEvent s

/-- The live watcher's `onLogs` callback restricted to its storage effect:
the loop over the delivered batch applying each event in delivery order. -/
def onLogs (s : PixelStorage) (logs : List PixelEvent) : PixelStorage :=
  logs.foldl applyLiveEvent s

/-- Well-formedness of a storage, as maintained by the engine: the JS object
cannot hold two bindings for one key, and the counter equals the number of
entries. -/
def StorageWF (s : PixelStorage) : Prop :=
  (pixKeys s.pixels).Nodup ∧ s.totalPixels = (s.pixels.length : Int)

/-!  Lemmas about the pixel-map operations. -/

theorem lookupPix_eq_none_iff (k : Coord) (m : PixelMap) :
    lookupPix k m = none ↔ ∀ p ∈ m, p.1 ≠ k := by
  induction m with
  | nil => simp [lookupPix]
  | cons p rest ih =>
    by_cases h : p.1 = k
    · simp [lookupPix, h]
    · simp [lookupPix, h, ih]

theorem erasePix_of_lookup_none {k : Coord} {m : PixelMap}
    (h : lookupPix k m = none) : erasePix k m = m := by
  rw [erasePix, List.filter_eq_self]
  intro p hp
  simpa using (lookupPix_eq_none_iff k m).1 h p hp

theorem lookupPix_erasePix_self (k : Coord) (m : PixelMap) :
    lookupPix k (erasePix k m) = none := by
  rw [lookupPix_eq_none_iff]
  intro p hp
  simpa using (List.mem_filter.mp hp).2

theorem erasePix_cons_self {k : Coord} {p : Coord × PixelData} {rest : PixelMap}
    (hpk : p.1 = k) : erasePix k (p :: rest) = erasePix k rest := by
  simp [erasePix, hpk]

theorem erasePix_cons_ne {k : Coord} {p : Coord × PixelData} {rest : PixelMap}
    (hpk : p.1 ≠ k) : erasePix k (p :: rest) = p :: erasePix k rest := by
  simp [erasePix, hpk]

theorem lookupPix_erasePix_ne {k' k : Coord} (m : PixelMap) (h : k' ≠ k) :
    lookupPix k' (erasePix k m) = lookupPix k' m := by
  induction m with
  | nil => rfl
  | cons p rest ih =>
    by_cases hpk : p.1 = k
    · have hpk' : ¬ p.1 = k' := fun hh => h (hh.symm.trans hpk)
      rw [erasePix_cons_self hpk]
      simp only [lookupPix, if_neg hpk']
      exact ih
    · rw [erasePix_cons_ne hpk]
      simp only [lookupPix]
      by_cases hpk' : p.1 = k'
      · simp [hpk']
      · simp [hpk', ih]

theorem lookupPix_append_right {k : Coord} {m : PixelMap}
    (h : lookupPix k m = none) (l : PixelMap) :
    lookupPix k (m ++ l) = lookupPix k l := by
  induction m with
  | nil => rfl
  | cons p rest ih =>
    by_cases hpk : p.1 = k
    · simp [lookupPix, hpk] at h
    · simp [lookupPix, hpk] at h ⊢
      exact ih h

theorem lookupPix_append_left {k : Coord} {m : PixelMap} {v : PixelData}
    (h : lookupPix k m = some v) (l : PixelMap) :
    lookupPix k (m ++ l) = some v := by
  induction m with
  | nil => simp [lookupPix] at h
  | cons p rest ih =>
    by_cases hpk : p.1 = k
    · simp [lookupPix, hpk] at h ⊢
      exact h
    · simp [lookupPix, hpk] at h ⊢
      exact ih h

theorem lookupPix_map_replace {k : Coord} (v : PixelData) {m : PixelMap}
    (h : (lookupPix k m).isSome) :
    lookupPix k (m.map fun p => if p.1 = k then (k, v) else p) = some v := by
  induction m with
  | nil => simp [lookupPix] at h
  | cons p rest ih =>
    by_cases hpk : p.1 = k
    · simp [lookupPix, hpk]
    · have h' : (lookupPix k rest).isSome := by
        simpa [lookupPix, hpk] using h
      simp [lookupPix, hpk, ih h']

theorem lookupPix_insertPix_self (k : Coord) (v : PixelData) (m : PixelMap) :
    lookupPix k (insertPix k v m) = some v := by
  rw [insertPix]
  by_cases h : (lookupPix k m).isSome
  · rw [if_pos h]
    exact lookupPix_map_replace v h
  · rw [if_neg h]
    have hnone : lookupPix k m = none := Option.not_isSome_iff_eq_none.mp h
    rw [lookupPix_append_right hnone]
    simp [lookupPix]

theorem lookupPix_map_replace_ne {k' k : Coord} (v : PixelData) (m : PixelMap)
    (h : k' ≠ k) :
    lookupPix k' (m.map fun p => if p.1 = k then (k, v) else p) = lookupPix k' m := by
  induction m with
  | nil => rfl
  | cons p rest ih =>
    by_cases hpk : p.1 = k
    · have hpk' : ¬ p.1 = k' := fun hh => h (hh.symm.trans hpk)
      have hk' : ¬ (k, v).1 = k' := fun hh => h hh.symm
      simp only [List.map_cons, if_pos hpk, lookupPix, if_neg hk', if_neg hpk']
      exact ih
    · simp only [List.map_cons, if_neg hpk, lookupPix]
      by_cases hpk' : p.1 = k'
      · simp [hpk']
      · simp [hpk', ih]

theorem lookupPix_insertPix_ne {k' k : Coord} (v : PixelData) (m : PixelMap)
    (h : k' ≠ k) :
    lookupPix k' (insertPix k v m) = lookupPix k' m := by
  rw [insertPix]
  by_cases hs : (lookupPix k m).isSome
  · rw [if_pos hs]
    exact lookupPix_map_replace_ne v m h
  · rw [if_neg hs]
    cases hh : lookupPix k' m with
    | some v' =>
      exact lookupPix_append_left hh _
    | none =>
      rw [lookupPix_append_right hh]
      simp [lookupPix, Ne.symm h]

theorem length_insertPix (k : Coord) (v : PixelData) (m : PixelMap) :
    (insertPix k v m).length =
      if (lookupPix k m).isSome then m.length else m.length + 1 := by
  rw [insertPix]
  split <;> simp

theorem length_erasePix_of_some {k : Coord} {m : PixelMap}
    (hn : (pixKeys m).Nodup) (h : (lookupPix k m).isSome) :
    m.length = (erasePix k m).length + 1 := by
  induction m with
  | nil => simp [lookupPix] at h
  | cons p rest ih =>
    rw [pixKeys] at hn
    simp only [List.map_cons, List.nodup_cons] at hn
    by_cases hpk : p.1 = k
    · have hkrest : lookupPix k rest = none := by
        rw [lookupPix_eq_none_iff]
        intro q hq hqk
        exact hn.1 (hpk ▸ hqk ▸ List.mem_map_of_mem Prod.fst hq)
      rw [erasePix_cons_self hpk, erasePix_of_lookup_none hkrest]
      simp
    · have h' : (lookupPix k rest).isSome := by
        simpa [lookupPix, hpk] using h
      rw [erasePix_cons_ne hpk]
      simp [ih hn.2 h']

theorem pixKeys_map_replace (k : Coord) (v : PixelData) (m : PixelMap) :
    pixKeys (m.map fun p => if p.1 = k then (k, v) else p) = pixKeys m := by
  induction m with
  | nil => rfl
  | cons p rest ih =>
    by_cases hpk : p.1 = k
    · simp [pixKeys, hpk] at ih ⊢
      exact ih
    · simp [pixKeys, hpk] at ih ⊢
      exact ih

theorem pixKeys_insertPix (k : Coord) (v : PixelData) (m : PixelMap) :
    pixKeys (insertPix k v m) =
      if (lookupPix k m).isSome then pixKeys m else pixKeys m ++ [k] := by
  rw [insertPix]
  split
  · exact pixKeys_map_replace k v m
  · simp [pixKeys]

theorem nodup_pixKeys_insertPix {k : Coord} {v : PixelData} {m : PixelMap}
    (hn : (pixKeys m).Nodup) : (pixKeys (insertPix k v m)).Nodup := by
  rw [pixKeys_insertPix]
  split
  · exact hn
  · rename_i h
    have hnone : lookupPix k m = none := Option.not_isSome_iff_eq_none.mp h
    have hnotmem : k ∉ pixKeys m := by
      intro hk
      obtain ⟨q, hq, hqk⟩ := List.mem_map.mp hk
      exact (lookupPix_eq_none_iff k m).1 hnone q hq hqk
    simp [List.nodup_append, hn, hnotmem]

theorem nodup_pixKeys_erasePix {m : PixelMap} (k : Coord)
    (hn : (pixKeys m).Nodup) : (pixKeys (erasePix k m)).Nodup :=
  hn.sublist (List.Sublist.map Prod.fst (List.filter_sublist m))

theorem map_replace_self_eq {k : Coord} {v : PixelData} {m : PixelMap}
    (h : lookupPix k m = none) :
    (m.map fun p => if p.1 = k then (k, v) else p) = m := by
  have hkeys := (lookupPix_eq_none_iff k m).1 h
  calc (m.map fun p => if p.1 = k then (k, v) else p)
      = m.map id := List.map_congr_left fun p hp => by
        simp [hkeys p hp]
    _ = m := List.map_id m

theorem insertPix_idem (k : Coord) (v : PixelData) (m : PixelMap) :
    insertPix k v (insertPix k v m) = insertPix k v m := by
  have hsome : (lookupPix k (insertPix k v m)).isSome := by
    rw [lookupPix_insertPix_self]; rfl
  conv_lhs => rw [insertPix]
  rw [if_pos hsome]
  rw [insertPix]
  by_cases h : (lookupPix k m).isSome
  · rw [if_pos h, List.map_map]
    apply List.map_congr_left
    intro p hp
    by_cases hpk : p.1 = k <;> simp [Function.comp, hpk]
  · rw [if_neg h, List.map_append]
    have hm : (m.map fun p => if p.1 = k then (k, v) else p) = m :=
      map_replace_self_eq (Option.not_isSome_iff_eq_none.mp h)
    simp [hm]

/-- The live watcher's storage mutation coincides with the backfill one: the
two copies of the erase/upsert logic in the source agree. -/
theorem applyLiveEvent_eq_applyEvent (s : PixelStorage) (e : PixelEvent) :
    applyLiveEvent s e = applyEvent s e := by
  rw [applyLiveEvent, applyEvent]
  by_cases hc : e.color = 0
  · simp [hc]
  · simp only [if_neg hc]
    by_cases h : (lookupPix (eventKey e) s.pixels).isSome <;> simp [h]

theorem applyEvent_pixels (s : PixelStorage) (e : PixelEvent) :
    (applyEvent s e).pixels =
      if e.color = 0 then
        (if (lookupPix (eventKey e) s.pixels).isSome then
          erasePix (eventKey e) s.pixels
        else s.pixels)
      else insertPix (eventKey e) (pixelDataOf e) s.pixels := by
  rw [applyEvent]
  by_cases hcol : e.color = 0 <;>
    by_cases hs : (lookupPix (eventKey e) s.pixels).isSome <;>
      simp [hcol, hs]

theorem lastProcessedBlock_applyEvent (s : PixelStorage) (e : PixelEvent) :
    (applyEvent s e).lastProcessedBlock = s.lastProcessedBlock := by
  rw [applyEvent]
  by_cases hcol : e.color = 0 <;>
    by_cases hs : (lookupPix (eventKey e) s.pixels).isSome <;>
      simp [hcol, hs]

theorem lastProcessedBlock_applyEvents (logs : List PixelEvent) :
    ∀ s : PixelStorage,
      (applyEvents s logs).lastProcessedBlock = s.lastProcessedBlock := by
  induction logs with
  | nil => intro s; rfl
  | cons e rest ih =>
    intro s
    have : applyEvents s (e :: rest) = applyEvents (applyEvent s e) rest := rfl
    rw [this, ih (applyEvent s e), lastProcessedBlock_applyEvent]

/-- Preservation of the store invariant by one event application. -/
theorem storageWF_applyEvent {s : PixelStorage} (e : PixelEvent)
    (h : StorageWF s) : StorageWF (applyEvent s e) := by
  obtain ⟨hn, hc⟩ := h
  rw [applyEvent]
  by_cases hcol : e.color = 0
  · by_cases hs : (lookupPix (eventKey e) s.pixels).isSome
    · simp only [if_pos hcol, if_pos hs]
      refine ⟨nodup_pixKeys_erasePix _ hn, ?_⟩
      have hl := length_erasePix_of_some hn hs
      simp only []
      rw [hc]
      omega
    · simp [hcol, hs, StorageWF, hn, hc]
  · by_cases hs : (lookupPix (eventKey e) s.pixels).isSome
    · simp only [if_neg hcol, if_pos hs]
      refine ⟨nodup_pixKeys_insertPix hn, ?_⟩
      have hl := length_insertPix (eventKey e) (pixelDataOf e) s.pixels
      rw [if_pos hs] at hl
      simp only []
      rw [hc, hl]
    · simp only [if_neg hcol, if_neg hs]
      refine ⟨nodup_pixKeys_insertPix hn, ?_⟩
      have hl := length_insertPix (eventKey e) (pixelDataOf e) s.pixels
      rw [if_neg hs] at hl
      simp only []
      rw [hc, hl]
      push_cast
      omega

/-!  Historical backfill: chunks, the batch cursor advance, and the
interleaving of chunk resolution inside one `Promise.allSettled` batch. -/

/-- A backfill chunk `{ from, to }` (`from` is a reserved word in Lean, so
the fields are spelled `fromBlock` / `toBlock`). -/
structure Chunk where
  fromBlock : Nat
  toBlock : Nat
deriving DecidableEq

/-- `chunks.reduce((max, chunk) => chunk.to > max ? chunk.to : max, 0n)`
from `processChunksParallel`. -/
def maxToBlock (chunks : List Chunk) : Nat :=
  chunks.foldl (fun mx c => if c.toBlock > mx then c.toBlock else mx) 0

/-- The cursor update at the end of `processChunksParallel` (lines 540-546):
assign the batch's maximum `to` only when it exceeds the current cursor. -/
def advanceCursor (s : PixelStorage) (chunks : List Chunk) : PixelStorage :=
  if maxToBlock chunks > s.lastProcessedBlock then
    { s with lastProcessedBlock := maxToBlock chunks }
  else
    s

/-- Observable steps of one `processChunksParallel` batch, used to state
temporal (ordering) claims.  `resolveChunk i` is the moment chunk `i`'s
`getLogs` promise settles; `applyChunk i` is the synchronous loop that
applies chunk `i`'s events to the store; `advanceOp` is the cursor update
after `Promise.allSettled` returns. -/
inductive BatchOp where
  | resolveChunk (i : Nat)
  | applyChunk (i : Nat)
  | advanceOp
deriving DecidableEq

/-- One chunk continuation inside `Promise.allSettled`: when chunk `i`
settles, `processHistoricalEvents` applies its fetched events to the shared
store immediately, before any other still-pending chunk settles. -/
def chunkStep (fetched : Nat → List PixelEvent)
    (acc : PixelStorage × List BatchOp) (i : Nat) :
    PixelStorage × List BatchOp :=
  (applyEvents acc.1 (fetched i),
   acc.2 ++ [BatchOp.resolveChunk i, BatchOp.applyChunk i])

/-- `processChunksParallel`, embedded over an explicit resolution schedule:
`schedule` lists the chunk indices in the order in which their fetches
settle on the event loop (a skipped chunk settles with `fetched i = []`).
Each chunk's events are applied by its own continuation as it settles; only
after all of them have settled does the cursor advance run.  Returns the
final storage together with the trace of observable steps. -/
def processChunksParallel (fetched : Nat → List PixelEvent)
    (chunks : List Chunk) (schedule : List Nat) (s : PixelStorage) :
    PixelStorage × List BatchOp :=
  let r := schedule.foldl (chunkStep fetched) (s, [])
  (advanceCursor r.1 chunks, r.2 ++ [BatchOp.advanceOp])

/-- The shape of the trace produced by one batch: resolve/apply pairs in
settlement order, then the single cursor advance. -/
def batchTrace (schedule : List Nat) : List BatchOp :=
  (schedule.map fun i => [BatchOp.resolveChunk i, BatchOp.applyChunk i]).flatten
    ++ [BatchOp.advanceOp]

def isApplyOp : BatchOp → Bool
  | .applyChunk _ => true
  | _ => false

def isResolveOp : BatchOp → Bool
  | .resolveChunk _ => true
  | _ => false

/-- The batch-barrier property claimed of event application: in the trace,
no chunk's events are applied while some chunk is still unresolved, i.e. no
`applyChunk` step precedes any `resolveChunk` step. -/
def appliesAfterBarrier (tr : List BatchOp) : Prop :=
  tr.Pairwise fun a b => ¬ (isApplyOp a = true ∧ isResolveOp b = true)

instance (tr : List BatchOp) : Decidable (appliesAfterBarrier tr) :=
  inferInstanceAs
    (Decidable (tr.Pairwise fun a b => ¬ (isApplyOp a = true ∧ isResolveOp b = true)))

theorem foldl_chunkStep_trace (fetched : Nat → List PixelEvent)
    (schedule : List Nat) :
    ∀ (s : PixelStorage) (tr : List BatchOp),
      (schedule.foldl (chunkStep fetched) (s, tr)).2 =
        tr ++ (schedule.map fun i =>
          [BatchOp.resolveChunk i, BatchOp.applyChunk i]).flatten := by
  induction schedule with
  | nil => intro s tr; simp
  | cons i rest ih =>
    intro s tr
    rw [List.foldl_cons]
    rw [ih]
    simp [chunkStep]

theorem foldl_chunkStep_cursor (fetched : Nat → List PixelEvent)
    (schedule : List Nat) :
    ∀ (s : PixelStorage) (tr : List BatchOp),
      (schedule.foldl (chunkStep fetched) (s, tr)).1.lastProcessedBlock =
        s.lastProcessedBlock := by
  induction schedule with
  | nil => intro s tr; rfl
  | cons i rest ih =>
    intro s tr
    rw [List.foldl_cons]
    rw [ih]
    exact lastProcessedBlock_applyEvents (fetched i) s

/-!  The serialized engine operations that touch the storage, for the
cursor-monotonicity claim. -/

/-- One serialized mutation of the storage: a backfill event application, a
live-tail event application, or the end-of-batch cursor advance. -/
inductive EngineOp where
  | histEvent (e : PixelEvent)
  | liveEvent (e : PixelEvent)
  | batchAdvance (chunks : List Chunk)

def runOp (s : PixelStorage) : EngineOp → PixelStorage
  | .histEvent e => applyEvent s e
  | .liveEvent e => applyLiveEvent s e
  | .batchAdvance chunks => advanceCursor s chunks

/-- A sequence of serialized engine operations. -/
def runOps (s : PixelStorage) (ops : List EngineOp) : PixelStorage :=
  ops.foldl runOp s

theorem lastProcessedBlock_le_runOp (s : PixelStorage) (op : EngineOp) :
    s.lastProcessedBlock ≤ (runOp s op).lastProcessedBlock := by
  cases op with
  | histEvent e => rw [runOp, lastProcessedBlock_applyEvent]
  | liveEvent e => rw [runOp, applyLiveEvent_eq_applyEvent, lastProcessedBlock_applyEvent]
  | batchAdvance chunks =>
    rw [runOp, advanceCursor]
    split
    · rename_i h
      exact Nat.le_of_lt h
    · exact Nat.le_refl _

/-!  Retry logic of `processHistoricalEvents` (lines 464-525). -/

/-- Classification of a failed `getLogs` call, as the `catch` block does:
code `-32022` / "compute unit limit" / "rate limit" is the rate-limited
class, anything else is rethrown. -/
inductive FetchError where
  | rateLimited
  | other
deriving DecidableEq

/-- `const MAX_RETRIES = 5`. -/
def MAX_RETRIES : Nat := 5

/-- `const BASE_DELAY = 3000`. -/
def BASE_DELAY : Nat := 3000

/-- Outcome of a `processHistoricalEvents` call: either a normal return
(with the storage after applying the fetched events, the returned pixel
list, and the backoff delays slept along the way), or a rethrown exception. -/
inductive ProcOutcome where
  | ok (storage : PixelStorage) (returned : List PixelData) (delays : List Nat)
  | thrown (storage : PixelStorage) (delays : List Nat)
deriving DecidableEq

/-- Record one backoff sleep in front of an outcome's delay list. -/
def pushDelay (d : Nat) : ProcOutcome → ProcOutcome
  | .ok st r ds => .ok st r (d :: ds)
  | .thrown st ds => .thrown st (d :: ds)

/-- `processHistoricalEvents(fromBlock, toBlock, retryCount)`, embedded over
an oracle `fetch` giving the result of the `getLogs` attempt number
`retryCount`.  The source recurses guarded by `retryCount < MAX_RETRIES`;
here the recursion is structural on `remaining = MAX_RETRIES - retryCount`,
which the entry point `processHistoricalEventsRun` sets up, so `remaining`
reaching `0` is exactly `retryCount` reaching `MAX_RETRIES`.  On success all
fetched events are applied and the pixel list is returned; on a rate-limit
error with retries left it sleeps `BASE_DELAY * 2 ^ retryCount` and
recurses; with retries exhausted it skips (returns `[]` normally, storage
untouched); any other error is rethrown. -/
def processHistoricalEvents (fetch : Nat → Except FetchError (List PixelEvent))
    (s : PixelStorage) : Nat → Nat → ProcOutcome
  | retryCount, remaining =>
    match fetch retryCount with
    | .ok logs => .ok (applyEvents s logs) (logs.map pixelDataOf) []
    | .error .rateLimited =>
      match remaining with
      | r + 1 =>
        pushDelay (BASE_DELAY * 2 ^ retryCount)
          (processHistoricalEvents fetch s (retryCount + 1) r)
      | 0 => .ok s [] []
    | .error .other => .thrown s []

/-- The engine's call `processHistoricalEvents(chunk.from, chunk.to)`, which
starts at `retryCount = 0`. -/
def processHistoricalEventsRun
    (fetch : Nat → Except FetchError (List PixelEvent)) (s : PixelStorage) :
    ProcOutcome :=
  processHistoricalEvents fetch s 0 MAX_RETRIES

/-!  Persistence: the snapshot document, `saveStorageImmediate` and
`loadStorage` (lines 388-429). -/

/-- The JSON snapshot document written by `saveStorageImmediate`: the pixel
map and `totalPixels` verbatim, and the 64-bit `lastProcessedBlock`
string-encoded (`.toString()`).  The decimal string is modelled as its
digit sequence, least-significant digit first (`Nat.digits 10`). -/
structure SavedSnapshot where
  pixels : PixelMap
  lastProcessedBlock : List Nat
  totalPixels : Int
deriving DecidableEq

/-- `saveStorageImmediate`: spread the storage and replace the cursor by its
decimal-string encoding. -/
def saveStorageImmediate (s : PixelStorage) : SavedSnapshot :=
  { pixels := s.pixels,
    lastProcessedBlock := Nat.digits 10 s.lastProcessedBlock,
    totalPixels := s.totalPixels }

/-- `BigInt(str)`: succeeds on a well-formed decimal digit string, throws
otherwise. -/
def parseBigInt (ds : List Nat) : Option Nat :=
  if ds.all fun d => d < 10 then some (Nat.ofDigits 10 ds) else none

/-- What `loadStorage` finds on disk: the snapshot file may be missing
(`existsSync` false), unreadable (`readFile` rejects), unparseable
(`JSON.parse` throws), or a parsed snapshot document. -/
inductive FileState where
  | missing
  | readError
  | parseError
  | good (snap : SavedSnapshot)

/-- The error rethrown by `loadStorage`'s catch block, by cause. -/
inductive LoadError where
  | ioError
  | parseFailed
  | badCursor
deriving DecidableEq

/-- `loadStorage`: when the file exists its contents are read, parsed and
installed (with `BigInt` decoding of the cursor); when it is missing the
constructor's fresh storage (empty, cursor at the genesis block) is kept and
the call returns normally.  A read, parse or `BigInt` failure is caught,
logged and rethrown (`throw error`), so the call errors instead of
returning. -/
def loadStorage (genesis : Nat) (file : FileState) :
    Except LoadError PixelStorage :=
  match file with
  | .missing => .ok (emptyStorage genesis)
  | .readError => .error .ioError
  | .parseError => .error .parseFailed
  | .good snap =>
    match parseBigInt snap.lastProcessedBlock with
    | some n =>
      .ok { pixels := snap.pixels, lastProcessedBlock := n,
            totalPixels := snap.totalPixels }
    | none => .error .badCursor

/-- Outcome of `EventListener.initialize()` as far as startup is concerned:
either `loadStorage` returned and the method proceeds to
`syncHistoricalEvents` (the resync) and `startWatching`, or `loadStorage`
threw and `initialize` rejects before any sync (the rejection is caught and
only logged by `index.ts`). -/
inductive StartOutcome where
  | resync (s : PixelStorage)
  | aborted (e : LoadError)
deriving DecidableEq

/-- The startup dispatch of `initialize()` around `await this.loadStorage()`. -/
def startupModel (genesis : Nat) (file : FileState) : StartOutcome :=
  match loadStorage genesis file with
  | .ok s => .resync s
  | .error e => .aborted e

/-!  Debounced persistence (`saveStorage`, lines 434-452). -/

/-- `SAVE_DEBOUNCE_MS = 5000`. -/
def SAVE_DEBOUNCE_MS : Nat := 5000

/-- `SAVE_MAX_WAIT_MS = 30000`. -/
def SAVE_MAX_WAIT_MS : Nat := 30000

/-- The debounce state held by the listener: `lastSaveTime` (ms timestamp of
the last actual flush), the armed timer's fire time if any, and the dirty
flag `pendingSave`. -/
structure SaveSched where
  lastSaveTime : Nat
  saveTimeout : Option Nat
  pendingSave : Bool
deriving DecidableEq

/-- What one `saveStorage()` call did: flushed synchronously, or re-armed
the timer with the given delay. -/
inductive SaveEffect where
  | flushedNow
  | armed (delay : Nat)
deriving DecidableEq

/-- `saveStorage()` at wall-clock time `now`: set the dirty flag, clear any
pending timer, flush immediately when `now - lastSaveTime` has reached
`SAVE_MAX_WAIT_MS` (the flush is `saveStorageImmediate`, which sets
`lastSaveTime = Date.now()` and clears the dirty flag), otherwise arm the
timer with delay `min(SAVE_DEBOUNCE_MS, SAVE_MAX_WAIT_MS - elapsed)`. -/
def saveStorage (now : Nat) (st : SaveSched) : SaveSched × SaveEffect :=
  let st1 : SaveSched := { st with pendingSave := true }
  let timeSinceLastSave := now - st1.lastSaveTime
  let st2 : SaveSched := { st1 with saveTimeout := none }
  if timeSinceLastSave ≥ SAVE_MAX_WAIT_MS then
    ({ st2 with lastSaveTime := now, pendingSave := false },
     SaveEffect.flushedNow)
  else
    let maxDelay := min SAVE_DEBOUNCE_MS (SAVE_MAX_WAIT_MS - timeSinceLastSave)
    ({ st2 with saveTimeout := some (now + maxDelay) },
     SaveEffect.armed maxDelay)

theorem onLogs_eq_applyEvents (s : PixelStorage) (logs : List PixelEvent) :
    onLogs s logs = applyEvents s logs := by
  rw [onLogs, applyEvents]
  congr 1
  funext s' e'
  exact applyLiveEvent_eq_applyEvent s' e'

/-!  Claim theorems. -/

/-- Claim C1: for every delivered event, on both delivery paths, an event
with color literally `0` removes the entry at `(x,y)` if present and leaves
it absent otherwise, while every non-zero color inserts or overwrites the
record at `(x,y)`; no other coordinate is affected, and no color other than
literal `0` is treated as erase.  The live watcher's mutation is the same
function as the backfill one. -/
theorem applyEvent_color_semantics (s : PixelStorage) (e : PixelEvent) (k : Coord) :
    lookupPix k (applyEvent s e).pixels =
      (if k = eventKey e then
        (if e.color = 0 then none else some (pixelDataOf e))
      else lookupPix k s.pixels) ∧
    applyLiveEvent s e = applyEvent s e := by
  refine ⟨?_, applyLiveEvent_eq_applyEvent s e⟩
  rw [applyEvent_pixels]
  by_cases hcol : e.color = 0
  · simp only [if_pos hcol]
    by_cases hs : (lookupPix (eventKey e) s.pixels).isSome
    · simp only [if_pos hs]
      by_cases hk : k = eventKey e
      · subst hk
        simp [hcol, lookupPix_erasePix_self]
      · simp [hk, lookupPix_erasePix_ne _ hk]
    · simp only [if_neg hs]
      by_cases hk : k = eventKey e
      · subst hk
        simp [hcol, Option.not_isSome_iff_eq_none.mp hs]
      · simp [hk]
  · simp only [if_neg hcol]
    by_cases hk : k = eventKey e
    · subst hk
      simp [hcol, lookupPix_insertPix_self]
    · simp [hk, hcol, lookupPix_insertPix_ne _ _ hk]

/-- Claim C9: applying the same event twice leaves the store identical to
applying it once, on both the backfill and the live path: a repeated upsert
overwrites with the same record without touching the count, and a repeated
erase finds the coordinate already absent and is a no-op. -/
theorem applyEvent_idempotent (s : PixelStorage) (e : PixelEvent) :
    applyEvent (applyEvent s e) e = applyEvent s e ∧
    applyLiveEvent (applyLiveEvent s e) e = applyLiveEvent s e := by
  have main : ∀ t : PixelStorage, applyEvent (applyEvent t e) e = applyEvent t e := by
    intro t
    by_cases hcol : e.color = 0
    · by_cases hs : (lookupPix (eventKey e) t.pixels).isSome
      · have h2 : lookupPix (eventKey e) (applyEvent t e).pixels = none := by
          rw [applyEvent_pixels]
          simp [hcol, hs, lookupPix_erasePix_self]
        conv_lhs => rw [applyEvent]
        simp [hcol, h2]
      · have h1 : applyEvent t e = t := by
          rw [applyEvent]
          simp [hcol, hs]
        rw [h1]
        exact h1
    · have h2 : lookupPix (eventKey e) (applyEvent t e).pixels
          = some (pixelDataOf e) := by
        rw [applyEvent_pixels]
        simp [hcol, lookupPix_insertPix_self]
      have h3 : insertPix (eventKey e) (pixelDataOf e) (applyEvent t e).pixels
          = (applyEvent t e).pixels := by
        rw [applyEvent_pixels]
        simp only [if_neg hcol]
        exact insertPix_idem _ _ _
      conv_lhs => rw [applyEvent]
      simp [hcol, h2, h3]
  refine ⟨main s, ?_⟩
  rw [applyLiveEvent_eq_applyEvent, applyLiveEvent_eq_applyEvent]
  exact main s

/-- Claim C10: the live watcher's event handler writes only the pixel map
and the counter; it never writes `lastProcessedBlock`, for any event, any
delivered batch and any store state, so during the watching phase the
cursor keeps the value backfill left it at. -/
theorem liveWatcher_cursor_frame (s : PixelStorage) (logs : List PixelEvent)
    (e : PixelEvent) :
    (onLogs s logs).lastProcessedBlock = s.lastProcessedBlock ∧
    (applyLiveEvent s e).lastProcessedBlock = s.lastProcessedBlock := by
  constructor
  · rw [onLogs_eq_applyEvents]
    exact lastProcessedBlock_applyEvents logs s
  · rw [applyLiveEvent_eq_applyEvent]
    exact lastProcessedBlock_applyEvent s e

/-- Claim C4: after any event application on a well-formed store,
`totalPixels` equals the number of entries of the pixel map (hence is never
negative), the invariant is preserved on both delivery paths, and the count
moves incrementally: `+1` exactly on an upsert of an absent coordinate,
unchanged on an overwrite, `-1` exactly on an erase of a present
coordinate, and untouched (the whole store untouched) on an erase of an
absent coordinate. -/
theorem applyEvent_totalPixels_invariant (s : PixelStorage) (e : PixelEvent)
    (h : StorageWF s) :
    (applyEvent s e).totalPixels = ((applyEvent s e).pixels.length : Int) ∧
    StorageWF (applyEvent s e) ∧ StorageWF (applyLiveEvent s e) ∧
    0 ≤ (applyEvent s e).totalPixels ∧
    (e.color ≠ 0 → lookupPix (eventKey e) s.pixels = none →
      (applyEvent s e).totalPixels = s.totalPixels + 1) ∧
    (e.color ≠ 0 → (lookupPix (eventKey e) s.pixels).isSome →
      (applyEvent s e).totalPixels = s.totalPixels) ∧
    (e.color = 0 → (lookupPix (eventKey e) s.pixels).isSome →
      (applyEvent s e).totalPixels = s.totalPixels - 1) ∧
    (e.color = 0 → lookupPix (eventKey e) s.pixels = none →
      applyEvent s e = s) := by
  have hwf := storageWF_applyEvent e h
  refine ⟨hwf.2, hwf, ?_, ?_, ?_, ?_, ?_, ?_⟩
  · rw [applyLiveEvent_eq_applyEvent]
    exact hwf
  · rw [hwf.2]
    exact Int.natCast_nonneg _
  · intro hc hnone
    rw [applyEvent]
    simp [hc, hnone]
  · intro hc hsome
    rw [applyEvent]
    simp [hc, hsome]
  · intro hc hsome
    rw [applyEvent]
    simp [hc, hsome]
  · intro hc hnone
    rw [applyEvent]
    simp [hc, hnone]

/-- Witness for C4 at a concrete input: the empty store is well-formed and
after placing one red pixel the counter equals the map size. -/
theorem applyEvent_totalPixels_invariant_witness :
    StorageWF (emptyStorage 0) ∧
    (applyEvent (emptyStorage 0)
        { user := "0xabc", x := 3, y := 4, color := 16711680, timestamp := 1000 }).totalPixels =
      ((applyEvent (emptyStorage 0)
        { user := "0xabc", x := 3, y := 4, color := 16711680, timestamp := 1000 }).pixels.length : Int) := by
  have hwf : StorageWF (emptyStorage 0) := ⟨List.nodup_nil, rfl⟩
  exact ⟨hwf, (applyEvent_totalPixels_invariant (emptyStorage 0)
    { user := "0xabc", x := 3, y := 4, color := 16711680, timestamp := 1000 } hwf).1⟩

/-- Claim C5: `lastProcessedBlock` never decreases across any sequence of
serialized engine operations, and the end-of-batch advance assigns the
batch's maximum `to` exactly when it exceeds the current cursor, leaving
the cursor unchanged otherwise. -/
theorem lastProcessedBlock_monotone (s : PixelStorage) (ops : List EngineOp) :
    s.lastProcessedBlock ≤ (runOps s ops).lastProcessedBlock ∧
    ∀ chunks : List Chunk,
      (advanceCursor s chunks).lastProcessedBlock =
        (if maxToBlock chunks > s.lastProcessedBlock then maxToBlock chunks
         else s.lastProcessedBlock) := by
  constructor
  · induction ops generalizing s with
    | nil => exact Nat.le_refl _
    | cons op rest ih =>
      show s.lastProcessedBlock ≤ (runOps (runOp s op) rest).lastProcessedBlock
      exact Nat.le_trans (lastProcessedBlock_le_runOp s op) (ih (runOp s op))
  · intro chunks
    by_cases hc : maxToBlock chunks > s.lastProcessedBlock <;>
      simp [advanceCursor, hc]

/-- Claim C2 counterexample: a batch of two chunks in which chunk 0's fetch
settles before chunk 1's.  Chunk 0's events are applied to the State Store
at the moment chunk 0 settles, i.e. before chunk 1 has resolved, so it is
false that all chunks' events are applied only after every chunk in the
batch has resolved. -/
theorem processChunksParallel_barrier_counterexample :
    ¬ appliesAfterBarrier
      ((processChunksParallel (fun _ => [])
        [{ fromBlock := 1, toBlock := 5 }, { fromBlock := 6, toBlock := 10 }]
        [0, 1] (emptyStorage 0)).2) := by
  decide

/-- Claim C2 (amended): each chunk's events are applied to the State Store
as soon as that chunk resolves — possibly before other chunks of the batch
have resolved — while the cursor advance alone sits behind the batch
barrier: it is the last step of the batch, after every chunk has resolved,
and it sets `lastProcessedBlock` to the batch's maximum `to` exactly when
that value exceeds the current cursor. -/
theorem processChunksParallel_apply_on_resolve
    (fetched : Nat → List PixelEvent) (chunks : List Chunk)
    (schedule : List Nat) (s : PixelStorage) :
    (processChunksParallel fetched chunks schedule s).2 = batchTrace schedule ∧
    (processChunksParallel fetched chunks schedule s).1.lastProcessedBlock =
      (if maxToBlock chunks > s.lastProcessedBlock then maxToBlock chunks
       else s.lastProcessedBlock) ∧
    (batchTrace schedule).getLast? = some BatchOp.advanceOp := by
  refine ⟨?_, ?_, ?_⟩
  · rw [processChunksParallel, batchTrace]
    simp [foldl_chunkStep_trace]
  · rw [processChunksParallel]
    simp only []
    have hc := foldl_chunkStep_cursor fetched schedule s []
    by_cases h : maxToBlock chunks > s.lastProcessedBlock <;>
      simp [advanceCursor, hc, h]
  · rw [batchTrace]
    simp

/-- Claim C3 counterexample: with a snapshot file that exists but fails to
parse, `loadStorage` rethrows the parse error instead of returning the
empty-store/genesis state, and `initialize` consequently aborts before any
resync. -/
theorem loadStorage_parse_failure_counterexample :
    loadStorage 100 FileState.parseError = Except.error LoadError.parseFailed ∧
    startupModel 100 FileState.parseError ≠ StartOutcome.resync (emptyStorage 100) ∧
    startupModel 100 FileState.parseError = StartOutcome.aborted LoadError.parseFailed :=
  ⟨rfl, by decide, rfl⟩

/-- Claim C3 (amended): only a *missing* snapshot file yields the empty
store at the configured genesis block with startup continuing as a full
resync; an unreadable or unparseable snapshot makes `loadStorage` rethrow,
so `initialize` aborts before the historical sync (the rejection is caught
and logged by the top-level caller, the process keeps serving). -/
theorem loadStorage_missing_vs_corrupt (genesis : Nat) :
    loadStorage genesis FileState.missing = Except.ok (emptyStorage genesis) ∧
    startupModel genesis FileState.missing
      = StartOutcome.resync (emptyStorage genesis) ∧
    loadStorage genesis FileState.readError = Except.error LoadError.ioError ∧
    loadStorage genesis FileState.parseError = Except.error LoadError.parseFailed ∧
    startupModel genesis FileState.readError
      = StartOutcome.aborted LoadError.ioError ∧
    startupModel genesis FileState.parseError
      = StartOutcome.aborted LoadError.parseFailed :=
  ⟨rfl, rfl, rfl, rfl, rfl, rfl⟩

/-- The delays slept by a run that is rate-limited on every attempt, with
`remaining` retries left starting from attempt `retryCount`. -/
def backoffDelays : Nat → Nat → List Nat
  | 0, _ => []
  | r + 1, retryCount => BASE_DELAY * 2 ^ retryCount :: backoffDelays r (retryCount + 1)

theorem processHistoricalEvents_allRL
    (fetch : Nat → Except FetchError (List PixelEvent)) (s : PixelStorage)
    (hRL : ∀ n, fetch n = .error .rateLimited) :
    ∀ remaining retryCount : Nat,
      processHistoricalEvents fetch s retryCount remaining =
        .ok s [] (backoffDelays remaining retryCount) := by
  intro remaining
  induction remaining with
  | zero =>
    intro rc
    simp only [processHistoricalEvents]
    rw [hRL rc]
    rfl
  | succ r ih =>
    intro rc
    simp only [processHistoricalEvents]
    rw [hRL rc]
    show pushDelay (BASE_DELAY * 2 ^ rc)
        (processHistoricalEvents fetch s (rc + 1) r) =
      .ok s [] (backoffDelays (r + 1) rc)
    rw [ih (rc + 1)]
    rfl

/-- Claim C6: a chunk fetch that fails with a rate-limit error on every
attempt is retried exactly five times, sleeping 3000, 6000, 12000, 24000
and 48000 ms (base 3000 ms, doubling), and is then skipped: the call
returns normally with no events applied to the store and an empty pixel
list, so the other chunks of the batch are not blocked.  A fetch failing
with any non-rate-limit error is rethrown without a retry. -/
theorem processHistoricalEvents_retry_policy
    (fetchRL fetchOther : Nat → Except FetchError (List PixelEvent))
    (s t : PixelStorage)
    (hRL : ∀ n, fetchRL n = .error .rateLimited)
    (hO : fetchOther 0 = .error .other) :
    processHistoricalEventsRun fetchRL s =
      .ok s [] [3000, 6000, 12000, 24000, 48000] ∧
    processHistoricalEventsRun fetchOther t = .thrown t [] := by
  constructor
  · have hdelays : backoffDelays MAX_RETRIES 0 = [3000, 6000, 12000, 24000, 48000] := by
      decide
    rw [processHistoricalEventsRun,
      processHistoricalEvents_allRL fetchRL s hRL MAX_RETRIES 0, hdelays]
  · rw [processHistoricalEventsRun]
    have hmr : MAX_RETRIES = Nat.succ 4 := rfl
    rw [hmr, processHistoricalEvents.eq_1, hO]

/-- A fetch oracle that is rate limited on every attempt. -/
def alwaysRateLimited : Nat → Except FetchError (List PixelEvent) :=
  fun _ => .error .rateLimited

/-- A fetch oracle that fails with a non-rate-limit error. -/
def alwaysOtherError : Nat → Except FetchError (List PixelEvent) :=
  fun _ => .error .other

/-- Witness for C6 at concrete inputs. -/
theorem processHistoricalEvents_retry_policy_witness :
    alwaysRateLimited 0 = Except.error FetchError.rateLimited ∧
    alwaysOtherError 0 = Except.error FetchError.other ∧
    processHistoricalEventsRun alwaysRateLimited (emptyStorage 7) =
      .ok (emptyStorage 7) [] [3000, 6000, 12000, 24000, 48000] ∧
    processHistoricalEventsRun alwaysOtherError (emptyStorage 7) =
      .thrown (emptyStorage 7) [] := by
  have h := processHistoricalEvents_retry_policy alwaysRateLimited alwaysOtherError
    (emptyStorage 7) (emptyStorage 7) (fun n => rfl) rfl
  exact ⟨rfl, rfl, h.1, h.2⟩

/-- Claim C7: serializing any store state (string-encoding the 64-bit
cursor) and loading the snapshot back reproduces an identical pixel map, an
identical `totalPixels` and the exact same `lastProcessedBlock`, with no
precision loss. -/
theorem snapshot_roundtrip (genesis : Nat) (s : PixelStorage) :
    loadStorage genesis (FileState.good (saveStorageImmediate s)) = Except.ok s := by
  have hall : ((Nat.digits 10 s.lastProcessedBlock).all fun d => d < 10) = true := by
    rw [List.all_eq_true]
    intro d hd
    simpa using Nat.digits_lt_base (by norm_num) hd
  simp only [loadStorage, saveStorageImmediate, parseBigInt, hall, if_pos,
    Nat.ofDigits_digits]

/-- Claim C8: when a mutation arrives and the time since the last actual
flush has reached the ceiling `SAVE_MAX_WAIT_MS = 30000`, `saveStorage`
flushes immediately; otherwise it clears the pending timer and re-arms it
with delay `min(SAVE_DEBOUNCE_MS, SAVE_MAX_WAIT_MS - elapsed)` (hence at
most `SAVE_DEBOUNCE_MS = 5000`), whose fire time never exceeds
`lastSaveTime + SAVE_MAX_WAIT_MS` — so under continuous mutation traffic at
most `SAVE_MAX_WAIT_MS` ms of unflushed mutations can accumulate. -/
theorem saveStorage_debounce_policy (now : Nat) (st : SaveSched) :
    (SAVE_MAX_WAIT_MS ≤ now - st.lastSaveTime →
      saveStorage now st =
        ({ lastSaveTime := now, saveTimeout := none, pendingSave := false },
         SaveEffect.flushedNow)) ∧
    (now - st.lastSaveTime < SAVE_MAX_WAIT_MS →
      saveStorage now st =
        ({ lastSaveTime := st.lastSaveTime,
           saveTimeout := some (now + min SAVE_DEBOUNCE_MS
             (SAVE_MAX_WAIT_MS - (now - st.lastSaveTime))),
           pendingSave := true },
         SaveEffect.armed (min SAVE_DEBOUNCE_MS
           (SAVE_MAX_WAIT_MS - (now - st.lastSaveTime)))) ∧
      min SAVE_DEBOUNCE_MS (SAVE_MAX_WAIT_MS - (now - st.lastSaveTime)) ≤
        SAVE_DEBOUNCE_MS ∧
      now + min SAVE_DEBOUNCE_MS (SAVE_MAX_WAIT_MS - (now - st.lastSaveTime)) ≤
        st.lastSaveTime + SAVE_MAX_WAIT_MS) := by
  constructor
  · intro h
    rw [saveStorage]
    simp only [if_pos h]
  · intro h
    have hnot : ¬ (now - st.lastSaveTime ≥ SAVE_MAX_WAIT_MS) := Nat.not_le.mpr h
    refine ⟨?_, Nat.min_le_left _ _, ?_⟩
    · rw [saveStorage]
      simp only [if_neg hnot]
    · have h1 : min SAVE_DEBOUNCE_MS (SAVE_MAX_WAIT_MS - (now - st.lastSaveTime)) ≤
          SAVE_MAX_WAIT_MS - (now - st.lastSaveTime) := Nat.min_le_right _ _
      omega

/-- Witness for C8 at concrete inputs: one call that flushes immediately
(elapsed 40000 ms ≥ 30000), and one that re-arms (elapsed 10000 ms) with
delay 5000 and fire time within the staleness ceiling. -/
theorem saveStorage_debounce_policy_witness :
    saveStorage 50000 { lastSaveTime := 10000, saveTimeout := some 12000, pendingSave := true } =
      ({ lastSaveTime := 50000, saveTimeout := none, pendingSave := false },
       SaveEffect.flushedNow) ∧
    saveStorage 10000 { lastSaveTime := 0, saveTimeout := none, pendingSave := false } =
      ({ lastSaveTime := 0, saveTimeout := some 15000, pendingSave := true },
       SaveEffect.armed 5000) ∧
    10000 + 5000 ≤ 0 + SAVE_MAX_WAIT_MS := by
  refine ⟨?_, ?_, by decide⟩
  · exact (saveStorage_debounce_policy 50000
      { lastSaveTime := 10000, saveTimeout := some 12000, pendingSave := true }).1
      (by decide)
  · exact ((saveStorage_debounce_policy 10000
      { lastSaveTime := 0, saveTimeout := none, pendingSave := false }).2
      (by decide)).1
